import Mathlib

/-!
Shallow embedding of the `Eventizer` event-bus class from
`src/Eventizer.ts` (react-eventizer), together with the `useEventizer`
context hook from `src/EventizerContext.tsx`.

Modelling conventions:
* Event names live in a type `E` with decidable equality (TypeScript keys).
* Listeners are identified by a type `L` with decidable equality; this models
  JavaScript reference equality of the callback functions (`cb !== callback`).
* The private field `subscribers : { [K in keyof EM]?: Array<...> }` is an
  optional map: `Subs E L := E → Option (List L)`; `none` models key absence
  (`delete this.subscribers[event]`), `some l` a present array.
* `emit` iterates the array with `forEach`, wrapping each call in
  `try/catch`; the catch logs `console.error` tagged with the event name.
  We model one emission as a trace of items: each listener call (with the
  payload it received) and each diagnostic report (tagged with the event
  name).  Whether a given listener throws is a parameter `raises : L → Bool`.
  `emit` never touches `subscribers`, so (absent listener re-entrancy, which
  is outside this model) it returns the state unchanged.
-/

set_option linter.unusedSectionVars false

namespace Eventizer

/-- The private `subscribers` field: event name to optional listener array. -/
abbrev Subs (E L : Type) : Type := E → Option (List L)

/-- `new Eventizer()`: `subscribers = {}` (every key absent). -/
def emptySubs (E L : Type) : Subs E L := fun _ => none

variable {E L P B : Type} [DecidableEq E] [DecidableEq L]

/-- `on(event, callback)`: creates the array if absent, then pushes the
callback at the end.  (An existing array — even an empty one, which is truthy
in JS — is kept and pushed onto.) -/
def «on» (s : Subs E L) (e : E) (cb : L) : Subs E L :=
  fun x => if x = e then some ((s e).getD [] ++ [cb]) else s x

/-- `off(event, callback)`: early-returns if the key is absent, otherwise
replaces the array by `filter(cb => cb !== callback)` and deletes the key if
the filtered array has length 0. -/
def off (s : Subs E L) (e : E) (cb : L) : Subs E L :=
  match s e with
  | none => s
  | some l =>
      let l2 := l.filter fun y => decide (y ≠ cb)
      if l2.length = 0 then fun x => if x = e then none else s x
      else fun x => if x = e then some l2 else s x

/-- The zero-argument function returned by `on`: `() => this.off(event, callback)`. -/
def unsubscribe (e : E) (cb : L) (s : Subs E L) : Subs E L := off s e cb

/-- `subscriberCount(event)`: `this.subscribers[event]?.length || 0`. -/
def subscriberCount (s : Subs E L) (e : E) : Nat :=
  ((s e).getD []).length

/-- `clearEvent(event)`: `delete this.subscribers[event]`. -/
def clearEvent (s : Subs E L) (e : E) : Subs E L :=
  fun x => if x = e then none else s x

/-- `clearAll()`: `this.subscribers = {}`. -/
def clearAll (_s : Subs E L) : Subs E L := fun _ => none

/-- One observable item of an emission: a listener call carrying the payload
it was handed, or a diagnostic report (`console.error`) tagged with the
event name it identifies. -/
inductive TraceItem (E L P : Type) where
  | call (cb : L) (p : P)
  | report (e : E)
deriving DecidableEq

/-- The trace produced by `forEach` over one listener array: each listener is
called with the payload; if it raises, the failure is caught and a report
tagged with the event name follows, and iteration continues. -/
def emitList (raises : L → Bool) (e : E) (p : P) : List L → List (TraceItem E L P)
  | [] => []
  | cb :: rest =>
      TraceItem.call cb p ::
        ((if raises cb then [TraceItem.report e] else []) ++ emitList raises e p rest)

/-- `emit(event, payload)`: iterates `this.subscribers[event]?.forEach(...)`
(no calls when the key is absent) and leaves `subscribers` untouched; it
always returns normally, which the model reflects by being a total function
returning the unchanged state together with the trace. -/
def emit (s : Subs E L) (raises : L → Bool) (e : E) (p : P) :
    Subs E L × List (TraceItem E L P) :=
  (s, emitList raises e p ((s e).getD []))

/-- The listener calls of a trace, in order. -/
def callsOf : List (TraceItem E L P) → List (L × P)
  | [] => []
  | TraceItem.call cb p :: rest => (cb, p) :: callsOf rest
  | TraceItem.report _ :: rest => callsOf rest

/-- The diagnostic reports of a trace, in order. -/
def reportsOf : List (TraceItem E L P) → List E
  | [] => []
  | TraceItem.call _ _ :: rest => reportsOf rest
  | TraceItem.report e :: rest => e :: reportsOf rest

/-- The value stored in the React context by `EventizerProvider`: `{ bus }`. -/
structure ContextValue (B : Type) where
  bus : B

/-- The message of the error thrown by `useEventizer` outside a provider. -/
def noProviderMsg : String := "useEventizer must be used within an EventizerProvider"

/-- `useEventizer` from `EventizerContext.tsx`: the context value is `null`
(no provider) or `{ bus }`; outside a provider it throws, otherwise it
returns the provided bus. -/
def useEventizer (ctx : Option (ContextValue B)) : Except String B :=
  match ctx with
  | none => Except.error noProviderMsg
  | some c => Except.ok c.bus

/-- A mutating operation on the bus (the four state-changing methods). -/
inductive Op (E L : Type) where
  | «on» (e : E) (cb : L)
  | off (e : E) (cb : L)
  | clearEvent (e : E)
  | clearAll

/-- Apply one mutating method. -/
def applyOp (s : Subs E L) : Op E L → Subs E L
  | Op.«on» e cb => «on» s e cb
  | Op.off e cb => off s e cb
  | Op.clearEvent e => clearEvent s e
  | Op.clearAll => clearAll s

/-- Run a sequence of mutating methods. -/
def runOps (s : Subs E L) : List (Op E L) → Subs E L
  | [] => s
  | op :: rest => runOps (applyOp s op) rest

/-- Spec-side reference model for subscriber bookkeeping, following the
spec's words: the state is simply the list of currently active registrations
per event; `on` appends a registration, `off` removes every registration
equal to the listener, `clearEvent` empties one event, `clearAll` all. -/
abbrev SpecModel (E L : Type) : Type := E → List L

/-- Apply one mutating method in the spec-side reference model. -/
def specApply (m : SpecModel E L) : Op E L → SpecModel E L
  | Op.«on» e cb => fun x => if x = e then m x ++ [cb] else m x
  | Op.off e cb => fun x => if x = e then m x |>.filter (fun y => decide (y ≠ cb)) else m x
  | Op.clearEvent e => fun x => if x = e then [] else m x
  | Op.clearAll => fun _ => []

/-- Run a sequence of methods in the spec-side reference model. -/
def specRun (m : SpecModel E L) : List (Op E L) → SpecModel E L
  | [] => m
  | op :: rest => specRun (specApply m op) rest

/-- Abstraction from the implementation state to the reference model:
forget whether an event is absent or has an empty array. -/
def absMap (s : Subs E L) : SpecModel E L := fun x => (s x).getD []

/-- §3 invariant: keys present in the mapping always have a non-empty
sequence. -/
def Inv (s : Subs E L) : Prop := ∀ e l, s e = some l → l ≠ []

/-! ### Helper lemmas about traces -/

lemma callsOf_append (a b : List (TraceItem E L P)) :
    callsOf (a ++ b) = callsOf a ++ callsOf b := by
  induction a with
  | nil => rfl
  | cons x rest ih => cases x <;> simp [callsOf, ih]

lemma reportsOf_append (a b : List (TraceItem E L P)) :
    reportsOf (a ++ b) = reportsOf a ++ reportsOf b := by
  induction a with
  | nil => rfl
  | cons x rest ih => cases x <;> simp [reportsOf, ih]

/-- Every listener of the array appears in the trace as exactly one call,
in array order, carrying the payload — whether or not it raises. -/
lemma callsOf_emitList (raises : L → Bool) (e : E) (p : P) (l : List L) :
    callsOf (emitList raises e p l) = l.map fun c => (c, p) := by
  induction l with
  | nil => rfl
  | cons cb rest ih =>
      cases h : raises cb <;>
        simp [emitList, callsOf, callsOf_append, h, ih]

/-- The reports of a trace: one per raising listener, tagged with `e`. -/
lemma reportsOf_emitList (raises : L → Bool) (e : E) (p : P) (l : List L) :
    reportsOf (emitList raises e p l) = (l.filter raises).map fun _ => e := by
  induction l with
  | nil => rfl
  | cons cb rest ih =>
      cases h : raises cb <;>
        simp [emitList, reportsOf, reportsOf_append, List.filter_cons, h, ih]

/-- A call to `c` only appears in the trace if `c` is in the listener array. -/
lemma call_mem_emitList (raises : L → Bool) (e : E) (p : P) (l : List L)
    (c : L) (q : P) (h : TraceItem.call c q ∈ emitList raises e p l) : c ∈ l := by
  induction l with
  | nil => simp [emitList] at h
  | cons cb rest ih =>
      rw [emitList] at h
      rcases List.mem_cons.mp h with heq | h2
      · obtain ⟨rfl, rfl⟩ := TraceItem.call.inj heq
        exact List.mem_cons_self _ _
      · rcases List.mem_append.mp h2 with h3 | h4
        · split at h3 <;> simp at h3
        · exact List.mem_cons_of_mem _ (ih h4)

/-- Counting a mapped pair counts the listener. -/
lemma count_map_pair [DecidableEq P] (l : List L) (cb : L) (p : P) :
    ((l.map fun c => (c, p)).count (cb, p)) = l.count cb := by
  induction l with
  | nil => rfl
  | cons x rest ih =>
      by_cases h : x = cb <;> simp [List.count_cons, h, ih]

/-! ### Helper lemmas about `off` -/

lemma off_eq_none (s : Subs E L) (e : E) (cb : L) (h : s e = none) :
    off s e cb = s := by
  unfold off; rw [h]

lemma off_eq_some (s : Subs E L) (e : E) (cb : L) (l : List L) (h : s e = some l) :
    off s e cb =
      if (l.filter fun y => decide (y ≠ cb)).length = 0
      then fun x => if x = e then none else s x
      else fun x => if x = e then some (l.filter fun y => decide (y ≠ cb)) else s x := by
  unfold off; rw [h]

/-- `off` only touches the key it is given. -/
lemma off_apply_ne (s : Subs E L) (e : E) (cb : L) (x : E) (hx : x ≠ e) :
    off s e cb x = s x := by
  rcases h : s e with _ | l
  · rw [off_eq_none s e cb h]
  · rw [off_eq_some s e cb l h]; split <;> simp [hx]

/-- At its own key, `off` yields the filtered array, with the key deleted
when the filtered array is empty. -/
lemma off_apply_self (s : Subs E L) (e : E) (cb : L) (l : List L) (h : s e = some l) :
    off s e cb e =
      if (l.filter fun y => decide (y ≠ cb)) = []
      then none else some (l.filter fun y => decide (y ≠ cb)) := by
  rw [off_eq_some s e cb l h]
  by_cases hl : (l.filter fun y => decide (y ≠ cb)) = []
  · rw [if_pos (by rw [hl]; rfl), if_pos hl]; simp
  · rw [if_neg fun hc => hl (List.length_eq_zero.mp hc), if_neg hl]; simp

/-- Observed through `getD []`, `off` is exactly a filter at its key. -/
lemma off_apply_getD (s : Subs E L) (e : E) (cb : L) :
    ((off s e cb) e).getD [] = ((s e).getD []).filter fun y => decide (y ≠ cb) := by
  rcases h : s e with _ | l
  · rw [off_eq_none s e cb h, h]; rfl
  · rw [off_apply_self s e cb l h]
    by_cases hf : (l.filter fun y => decide (y ≠ cb)) = []
    · rw [if_pos hf]; exact hf.symm
    · rw [if_neg hf]; rfl

lemma filter_ne_idem (l : List L) (cb : L) :
    ((l.filter fun y => decide (y ≠ cb)).filter fun y => decide (y ≠ cb))
      = l.filter fun y => decide (y ≠ cb) := by
  simp [List.filter_filter]

lemma off_idem (s : Subs E L) (e : E) (cb : L) :
    off (off s e cb) e cb = off s e cb := by
  rcases h : s e with _ | l
  · rw [off_eq_none s e cb h, off_eq_none s e cb h]
  · rw [off_eq_some s e cb l h]
    by_cases hl : (l.filter fun y => decide (y ≠ cb)).length = 0
    · rw [if_pos hl]
      exact off_eq_none _ e cb (by simp)
    · rw [if_neg hl]
      have h2 : (fun x => if x = e then some (l.filter fun y => decide (y ≠ cb)) else s x :
          Subs E L) e = some (l.filter fun y => decide (y ≠ cb)) := by simp
      rw [off_eq_some _ e cb _ h2, filter_ne_idem]
      rw [if_neg hl]
      funext x
      by_cases hx : x = e <;> simp [hx]

/-- When the key holds a non-empty array containing no occurrence of the
listener, `off` leaves the state literally unchanged. -/
lemma off_not_mem (s : Subs E L) (e : E) (cb : L) (l : List L)
    (h : s e = some l) (hne : l ≠ []) (hmem : cb ∉ l) : off s e cb = s := by
  have hf : (l.filter fun y => decide (y ≠ cb)) = l :=
    List.filter_eq_self.mpr fun a ha => by
      simp only [decide_eq_true_eq]
      rintro rfl; exact hmem ha
  rw [off_eq_some s e cb l h, hf, if_neg (by simp [List.length_eq_zero, hne])]
  funext x
  by_cases hx : x = e
  · subst hx; simp [h]
  · simp [hx]

/-- Removing the occurrences of `cb` and counting them partitions the array. -/
lemma length_filter_ne (l : List L) (cb : L) :
    (l.filter fun y => decide (y ≠ cb)).length + l.count cb = l.length := by
  induction l with
  | nil => rfl
  | cons x rest ih =>
      by_cases hx : x = cb
      · subst hx
        rw [List.filter_cons_of_neg (by simp), List.count_cons_self, List.length_cons]
        omega
      · rw [List.filter_cons_of_pos (by simp [hx]),
          List.count_cons_of_ne (fun hc => hx hc.symm), List.length_cons,
          List.length_cons]
        omega

/-! ### Simulation between the implementation and the spec-side model -/

lemma absMap_applyOp (s : Subs E L) (op : Op E L) :
    absMap (applyOp s op) = specApply (absMap s) op := by
  funext x
  cases op with
  | «on» e cb =>
      by_cases hx : x = e <;> simp [absMap, applyOp, «on», specApply, hx]
  | off e cb =>
      show (off s e cb x).getD [] = _
      by_cases hx : x = e
      · subst hx
        rw [off_apply_getD s x cb]
        simp [specApply, absMap]
      · rw [off_apply_ne s e cb x hx]
        simp [specApply, absMap, hx]
  | clearEvent e =>
      by_cases hx : x = e <;> simp [absMap, applyOp, clearEvent, specApply, hx]
  | clearAll => simp [absMap, applyOp, clearAll, specApply]

lemma absMap_runOps (s : Subs E L) (ops : List (Op E L)) :
    absMap (runOps s ops) = specRun (absMap s) ops := by
  induction ops generalizing s with
  | nil => rfl
  | cons op rest ih => rw [runOps, specRun, ← absMap_applyOp, ih]

/-! ### Invariant preservation -/

lemma inv_empty : Inv (emptySubs E L) := by
  intro e l h
  simp [emptySubs] at h

lemma inv_applyOp (s : Subs E L) (hs : Inv s) (op : Op E L) : Inv (applyOp s op) := by
  cases op with
  | «on» e cb =>
      intro x l h
      simp only [applyOp, «on»] at h
      by_cases hx : x = e
      · rw [if_pos hx] at h
        cases h
        simp
      · rw [if_neg hx] at h
        exact hs x l h
  | off e cb =>
      intro x l h
      simp only [applyOp] at h
      rcases he : s e with _ | l0
      · rw [off_eq_none s e cb he] at h
        exact hs x l h
      · rw [off_eq_some s e cb l0 he] at h
        split at h
        · by_cases hx : x = e
          · simp only [] at h; rw [if_pos hx] at h; cases h
          · simp only [] at h; rw [if_neg hx] at h; exact hs x l h
        · rename_i hlen
          by_cases hx : x = e
          · simp only [] at h
            rw [if_pos hx] at h
            cases h
            exact fun hc => hlen (by rw [hc]; rfl)
          · simp only [] at h; rw [if_neg hx] at h; exact hs x l h
  | clearEvent e =>
      intro x l h
      simp only [applyOp, clearEvent] at h
      by_cases hx : x = e
      · rw [if_pos hx] at h; cases h
      · rw [if_neg hx] at h; exact hs x l h
  | clearAll =>
      intro x l h
      simp [applyOp, clearAll] at h

lemma inv_runOps (ops : List (Op E L)) (s : Subs E L) (hs : Inv s) :
    Inv (runOps s ops) := by
  induction ops generalizing s with
  | nil => exact hs
  | cons op rest ih => exact ih _ (inv_applyOp s hs op)

/-! ### The claims -/

/-- C1: after `on(E, L)`, `emit(E, P)` invokes every currently-registered
listener registration for E exactly once each, in registration order,
passing P to each (first conjunct, for every state); `on` appends exactly
one registration of L, so L gains exactly one invocation (second conjunct);
in particular, when L was not already registered, L is invoked exactly once
with argument P (third conjunct); and when E has no registered listeners
the emission invokes nothing (fourth conjunct). -/
theorem C1_delivery [DecidableEq P] (s : Subs E L) (e : E) (cb : L) (p : P)
    (raises : L → Bool) (hfresh : cb ∉ (s e).getD []) :
    (∀ t : Subs E L, callsOf (emit t raises e p).2 = ((t e).getD []).map fun c => (c, p))
    ∧ (callsOf (emit («on» s e cb) raises e p).2).count (cb, p)
        = ((s e).getD []).count cb + 1
    ∧ (callsOf (emit («on» s e cb) raises e p).2).count (cb, p) = 1
    ∧ (∀ t : Subs E L, t e = none → (emit t raises e p).2 = []) := by
  have hcalls : ∀ t : Subs E L,
      callsOf (emit t raises e p).2 = ((t e).getD []).map fun c => (c, p) :=
    fun t => callsOf_emitList raises e p ((t e).getD [])
  have hone : («on» s e cb) e = some ((s e).getD [] ++ [cb]) := by simp [«on»]
  have hcount : (callsOf (emit («on» s e cb) raises e p).2).count (cb, p)
      = ((s e).getD []).count cb + 1 := by
    rw [hcalls, hone, Option.getD_some, count_map_pair, List.count_append]
    simp
  refine ⟨hcalls, hcount, ?_, fun t ht => by
    show emitList raises e p ((t e).getD []) = []
    rw [ht]
    rfl⟩
  rw [hcount, List.count_eq_zero.mpr hfresh]

/-- Witness for C1: on a fresh bus, one registered listener is called
exactly once. -/
theorem C1_delivery_witness :
    (callsOf (emit («on» (emptySubs Nat Nat) 0 7) (fun _ => false) 0 (5 : Nat)).2).count (7, 5)
      = 1 :=
  (C1_delivery (emptySubs Nat Nat) 0 7 5 (fun _ => false) (by decide)).2.2.1

/-- C2: if some listener of E raises during `emit(E, P)`, the failure is
caught inside `emit` (the state returned is unchanged, first conjunct),
every listener — including all subsequent ones — is still invoked with P in
order (second conjunct), one diagnostic report per raising listener is
produced (third conjunct), at least one report exists (fourth conjunct),
and every report is tagged with E (fifth conjunct); `emit` being a total
Lean function, it returns normally to its caller. -/
theorem C2_isolation (s : Subs E L) (e : E) (p : P) (raises : L → Bool) (l : List L)
    (hl : s e = some l) (hraise : ∃ cb ∈ l, raises cb = true) :
    (emit s raises e p).1 = s
    ∧ callsOf (emit s raises e p).2 = l.map (fun c => (c, p))
    ∧ reportsOf (emit s raises e p).2 = (l.filter raises).map (fun _ => e)
    ∧ reportsOf (emit s raises e p).2 ≠ []
    ∧ ∀ x ∈ reportsOf (emit s raises e p).2, x = e := by
  have hgd : (s e).getD [] = l := by rw [hl]; rfl
  have hc : callsOf (emit s raises e p).2 = l.map (fun c => (c, p)) := by
    show callsOf (emitList raises e p ((s e).getD [])) = _
    rw [hgd, callsOf_emitList]
  have hr : reportsOf (emit s raises e p).2 = (l.filter raises).map (fun _ => e) := by
    show reportsOf (emitList raises e p ((s e).getD [])) = _
    rw [hgd, reportsOf_emitList]
  refine ⟨rfl, hc, hr, ?_, ?_⟩
  · obtain ⟨cb, hcb, hcbr⟩ := hraise
    have hmemf : cb ∈ l.filter raises := List.mem_filter.mpr ⟨hcb, hcbr⟩
    rcases hf : l.filter raises with _ | ⟨a, rest⟩
    · rw [hf] at hmemf
      exact absurd hmemf (List.not_mem_nil _)
    · rw [hr, hf]
      simp
  · intro x hx
    rw [hr] at hx
    obtain ⟨_, _, rfl⟩ := List.mem_map.mp hx
    rfl

/-- Witness for C2: with listener 1 raising and listener 2 registered after
it, both are still called with the payload. -/
theorem C2_isolation_witness :
    callsOf (emit («on» («on» (emptySubs Nat Nat) 0 1) 0 2)
        (fun cb => decide (cb = 1)) 0 (9 : Nat)).2
      = [(1, 9), (2, 9)] := by
  have h := C2_isolation («on» («on» (emptySubs Nat Nat) 0 1) 0 2) 0 9
    (fun cb => decide (cb = 1)) [1, 2] (by decide) ⟨1, by decide, by decide⟩
  rw [h.2.1]
  rfl

/-- C3 counterexample: register the same listener reference twice for one
event; the zero-argument function returned by `on` performs `off`, which
removes BOTH registrations on its first invocation — the count drops from 2
to 0, not to 1, refuting "removes exactly one registration ... even if the
same listener reference is registered more than once". -/
theorem C3_counterexample :
    subscriberCount («on» («on» (emptySubs Nat Nat) 0 7) 0 7) 0 = 2
    ∧ subscriberCount (unsubscribe 0 7 («on» («on» (emptySubs Nat Nat) 0 7) 0 7)) 0 = 0
    ∧ ¬ subscriberCount (unsubscribe 0 7 («on» («on» (emptySubs Nat Nat) 0 7) 0 7)) 0 = 1 := by
  refine ⟨?_, ?_, ?_⟩ <;> decide

/-- C3 amended: the function returned by `on(E, L)` performs `off(E, L)`
(first conjunct): on its first invocation it removes every registration
equal to L (second conjunct), leaving exactly the registrations different
from L (third conjunct) — hence exactly one registration removed when L was
registered exactly once (fourth conjunct) — and invoking it a second or
later time has no further effect on the subscriber state and raises no
error (fifth conjunct). -/
theorem C3_amended_unsubscribe (s : Subs E L) (e : E) (cb : L) :
    unsubscribe e cb s = off s e cb
    ∧ cb ∉ ((unsubscribe e cb s) e).getD []
    ∧ subscriberCount (unsubscribe e cb s) e
        = (((s e).getD []).filter fun y => decide (y ≠ cb)).length
    ∧ (((s e).getD []).count cb = 1 →
        subscriberCount (unsubscribe e cb s) e = subscriberCount s e - 1)
    ∧ unsubscribe e cb (unsubscribe e cb s) = unsubscribe e cb s := by
  have hgd := off_apply_getD s e cb
  have hlen : subscriberCount (unsubscribe e cb s) e
      = (((s e).getD []).filter fun y => decide (y ≠ cb)).length := by
    show ((off s e cb e).getD []).length = _
    rw [hgd]
  refine ⟨rfl, ?_, hlen, ?_, off_idem s e cb⟩
  · show cb ∉ (off s e cb e).getD []
    rw [hgd]
    intro hmem
    have := (List.mem_filter.mp hmem).2
    simp at this
  · intro h1
    have hpart := length_filter_ne ((s e).getD []) cb
    rw [h1] at hpart
    show subscriberCount (unsubscribe e cb s) e = ((s e).getD []).length - 1
    rw [hlen]
    omega

/-- Witness for C3 amended: one registration of listener 7, unsubscribing
drops the count from 1 to 0. -/
theorem C3_amended_witness :
    subscriberCount (unsubscribe 0 7 («on» (emptySubs Nat Nat) 0 7)) 0
      = subscriberCount («on» (emptySubs Nat Nat) 0 7) 0 - 1 :=
  (C3_amended_unsubscribe («on» (emptySubs Nat Nat) 0 7) 0 7).2.2.2.1 (by decide)

/-- C4: `off(E, L)` is a silent no-op when E's key is absent (first
conjunct), only touches E's entry (second conjunct), replaces E's array by
the filter removing every entry equal to L — deleting E's key entirely when
the filtered array is empty (third conjunct) — so that no entry equal to L
survives (fourth conjunct) and the remaining listeners keep their relative
order, being a sublist of the original array (fifth conjunct). -/
theorem C4_off_semantics (s : Subs E L) (e : E) (cb : L) :
    (s e = none → off s e cb = s)
    ∧ (∀ x, x ≠ e → off s e cb x = s x)
    ∧ (∀ l, s e = some l →
        off s e cb e = if (l.filter fun y => decide (y ≠ cb)) = []
                       then none else some (l.filter fun y => decide (y ≠ cb)))
    ∧ cb ∉ ((off s e cb) e).getD []
    ∧ List.Sublist (((off s e cb) e).getD []) ((s e).getD []) := by
  refine ⟨fun h => off_eq_none s e cb h, fun x hx => off_apply_ne s e cb x hx,
    fun l hl => off_apply_self s e cb l hl, ?_, ?_⟩
  · rw [off_apply_getD]
    intro hmem
    have := (List.mem_filter.mp hmem).2
    simp at this
  · rw [off_apply_getD]
    exact List.filter_sublist _

/-- Witness for C4: removing the only registration (listed twice is covered
by C3) deletes the key entirely. -/
theorem C4_off_witness :
    off («on» (emptySubs Nat Nat) 0 7) 0 7 0 = none := by
  have h := (C4_off_semantics («on» (emptySubs Nat Nat) 0 7) 0 7).2.2.1 [7] (by decide)
  rw [h]
  decide

/-- C5: after any interleaving of the mutating methods starting from a fresh
bus, `subscriberCount(E)` equals the number of currently active (registered
and not removed) registrations for E, as tracked by the spec-side reference
model (first conjunct); it returns 0 when E has no registrations (second
conjunct); and being a `Nat` it is always ≥ 0 (third conjunct). -/
theorem C5_count_accuracy (e : E) :
    (∀ ops : List (Op E L),
      subscriberCount (runOps (emptySubs E L) ops) e
        = (specRun (fun _ => []) ops e).length)
    ∧ (∀ s : Subs E L, s e = none → subscriberCount s e = 0)
    ∧ (∀ s : Subs E L, 0 ≤ subscriberCount s e) := by
  refine ⟨fun ops => ?_, fun s h => ?_, fun s => Nat.zero_le _⟩
  · have h := absMap_runOps (emptySubs E L) ops
    have h2 : absMap (emptySubs E L) = (fun _ => ([] : List L)) := rfl
    show (absMap (runOps (emptySubs E L) ops) e).length = _
    rw [h, h2]
  · show ((s e).getD []).length = 0
    rw [h]
    rfl

/-- Witness for C5: an event with no registrations counts 0. -/
theorem C5_count_witness : subscriberCount (emptySubs Nat Nat) 0 = 0 :=
  (@C5_count_accuracy Nat Nat _ _ 0).2.1 (emptySubs Nat Nat) rfl

/-- C6: after `clearEvent(E)` the count of E is 0 (first conjunct) and an
emission on E produces no calls and no reports (second conjunct), while
every other event's entry is unchanged (third conjunct); `clearEvent` is a
no-op when E is already absent (fourth conjunct); and after `clearAll()`
the count of every event name is 0 (fifth conjunct). -/
theorem C6_clear_semantics (s : Subs E L) (e : E) (p : P) (raises : L → Bool) :
    subscriberCount (clearEvent s e) e = 0
    ∧ (emit (clearEvent s e) raises e p).2 = []
    ∧ (∀ x, x ≠ e → clearEvent s e x = s x)
    ∧ (s e = none → clearEvent s e = s)
    ∧ (∀ x, subscriberCount (clearAll s) x = 0) := by
  refine ⟨?_, ?_, fun x hx => by simp [clearEvent, hx], fun h => ?_, fun x => rfl⟩
  · show ((clearEvent s e e).getD []).length = 0
    simp [clearEvent]
  · show emitList raises e p ((clearEvent s e e).getD []) = []
    simp [clearEvent, emitList]
  · funext x
    by_cases hx : x = e
    · subst hx
      simp [clearEvent, h]
    · simp [clearEvent, hx]

/-- Witness for C6: clearing an absent event is a no-op. -/
theorem C6_clear_witness : clearEvent (emptySubs Nat Nat) 0 = emptySubs Nat Nat :=
  (C6_clear_semantics (emptySubs Nat Nat) 0 (0 : Nat) (fun _ => false)).2.2.2.1 rfl

/-- C7: a freshly constructed dispatcher has an empty subscriber mapping and
satisfies the invariant that every present key holds a non-empty array
(first conjunct); each of the four mutating methods preserves the invariant
(second conjunct); hence the invariant holds in every reachable state
(third conjunct). -/
theorem C7_invariant_reachable :
    Inv (emptySubs E L)
    ∧ (∀ (s : Subs E L) (op : Op E L), Inv s → Inv (applyOp s op))
    ∧ (∀ ops : List (Op E L), Inv (runOps (emptySubs E L) ops)) :=
  ⟨inv_empty, fun s op hs => inv_applyOp s hs op,
    fun ops => inv_runOps ops (emptySubs E L) inv_empty⟩

/-- Witness for C7: the invariant after one registration on a fresh bus. -/
theorem C7_invariant_witness : Inv («on» (emptySubs Nat Nat) 0 1) :=
  (@C7_invariant_reachable Nat Nat _ _).2.1 (emptySubs Nat Nat) (Op.«on» 0 1)
    (fun e l h => by simp [emptySubs] at h)

/-- C8: a listener registered only for E2 ≠ E1 is never invoked by
`emit(E1, P)` — no call to it, with any payload, occurs in the trace (first
conjunct) — and, no listener re-entering the dispatcher in this model,
`emit(E1, P)` returns the entire subscriber mapping unchanged (second
conjunct); `subscriberCount` takes the state and returns only a number, so
it cannot mutate anything by construction. -/
theorem C8_cross_event (s : Subs E L) (e1 e2 : E) (cb : L) (p : P) (raises : L → Bool)
    (_hne : e1 ≠ e2) (honly : cb ∈ (s e2).getD [] ∧ cb ∉ (s e1).getD []) :
    (∀ q : P, TraceItem.call cb q ∉ (emit s raises e1 p).2)
    ∧ (emit s raises e1 p).1 = s :=
  ⟨fun q hq => honly.2 (call_mem_emitList raises e1 p ((s e1).getD []) cb q hq), rfl⟩

/-- Witness for C8: listener 7, registered only for event 1, is not called
when event 0 is emitted. -/
theorem C8_cross_event_witness :
    TraceItem.call 7 (5 : Nat)
      ∉ (emit («on» (emptySubs Nat Nat) 1 7) (fun _ => false) 0 (5 : Nat)).2 :=
  (C8_cross_event («on» (emptySubs Nat Nat) 1 7) 0 1 7 5 (fun _ => false) (by decide)
    ⟨by decide, by decide⟩).1 5

/-- C9: `useEventizer` raises an error to the caller when no provider has
put a dispatcher in the context (first conjunct), and returns the provided
dispatcher instance when a provider is present (second conjunct). -/
theorem C9_useEventizer_contract (B : Type) :
    useEventizer (none : Option (ContextValue B)) = Except.error noProviderMsg
    ∧ ∀ c : ContextValue B, useEventizer (some c) = Except.ok c.bus :=
  ⟨rfl, fun _ => rfl⟩

/-- C10: `off(E, L)` is idempotent — applying it twice yields exactly the
same subscriber state as applying it once (first conjunct); and when E has
listeners none of which equals L, one application leaves the state literally
unchanged, hence every observable (counts and delivery) unchanged (second
conjunct). -/
theorem C10_off_idempotent (s : Subs E L) (e : E) (cb : L) :
    off (off s e cb) e cb = off s e cb
    ∧ (∀ l, s e = some l → l ≠ [] → cb ∉ l → off s e cb = s) :=
  ⟨off_idem s e cb, fun l h hne hmem => off_not_mem s e cb l h hne hmem⟩

/-- Witness for C10: removing an unregistered listener changes nothing. -/
theorem C10_off_witness :
    off («on» (emptySubs Nat Nat) 0 1) 0 7 = «on» (emptySubs Nat Nat) 0 1 :=
  (C10_off_idempotent («on» (emptySubs Nat Nat) 0 1) 0 7).2 [1]
    (by decide) (by decide) (by decide)

end Eventizer
